import Mathlib

/-!
Verification of the `lektor-algolia` synchronization engine
(`src/lektor_algolia.py`) against its design specification.

The Python source is shallowly embedded: pure helpers become Lean
functions, the Python `set` becomes `Finset String`, a Python `dict`
with string values becomes an association list, the credentials dict
(whose values may be `None`) becomes a partial map
`String → Option (Option String)`, and fallible code (dynamic
`TypeError` / `IndexError` / `KeyError`) returns `Option`.
The publisher's generator run is embedded as the full list of events it
produces (yielded progress strings and calls on the remote collaborator).
-/

/-- One search hit, as returned by the remote search collaborator.  The
source only ever reads `hit["objectID"]`. -/
structure Hit where
  objectID : String
deriving DecidableEq

/-- One page of results of `index.search("", params)`: the source reads
`page["hits"]`, `page["nbHits"]` and `page["nbPages"]`. -/
structure SearchPage where
  hits : List Hit
  nbHits : Int
  nbPages : Int

/-- The set of objectIDs of a list of hits
(`{hit["objectID"] for hit in hits}`). -/
def hitIds (hits : List Hit) : Finset String :=
  (hits.map Hit.objectID).toFinset

/-- The argument actually passed to `hit_object_ids` in the source: the
first call passes the whole page dict, the calls inside the pagination
loop pass `next_page["hits"]`, which is the hits list. -/
inductive PageOrHits where
  | page (p : SearchPage)
  | hitsList (hs : List Hit)

/-- `hit_object_ids(search_page)` evaluates
`{hit["objectID"] for hit in search_page["hits"]}`.  Indexing a Python
list with the string `"hits"` raises `TypeError`, hence `none` on the
`hitsList` argument. -/
def hit_object_ids : PageOrHits → Option (Finset String)
  | PageOrHits.page p => some (hitIds p.hits)
  | PageOrHits.hitsList _ => none

/-- Result of one enumeration run of `list_remote_keys`: the page
indices requested from the remote collaborator, in order, and the
returned key set (`none` when the run raised). -/
structure EnumTrace where
  requested : List Nat
  result : Option (Finset String)
deriving DecidableEq

/-- The pagination loop of `list_remote_keys`
(`for i in range(1, page_count)`), over the remaining page indices.
Each iteration requests page `i`; a page with `nbHits <= 0` breaks the
loop; otherwise the source evaluates
`hit_object_ids(next_page["hits"])`, which raises `TypeError`. -/
def lrkLoop (pages : Nat → SearchPage) (acc : Finset String)
    (req : List Nat) : List Nat → EnumTrace
  | [] => ⟨req, some acc⟩
  | i :: rest =>
    let next_page := pages i
    if next_page.nbHits ≤ 0 then
      ⟨req ++ [i], some acc⟩
    else
      match hit_object_ids (PageOrHits.hitsList next_page.hits) with
      | none => ⟨req ++ [i], none⟩
      | some s => lrkLoop pages (acc ∪ s) (req ++ [i]) rest

/-- `list_remote_keys(index)`, instrumented with the list of requested
page indices.  `pages i` is the remote collaborator's response to the
empty-query search for page `i` (the first request carries no `page`
parameter, i.e. page 0). -/
def list_remote_keys_run (pages : Nat → SearchPage) : EnumTrace :=
  let first_page := pages 0
  match hit_object_ids (PageOrHits.page first_page) with
  | none => ⟨[0], none⟩
  | some first_page_hits =>
    lrkLoop pages first_page_hits [0]
      (List.range' 1 (first_page.nbPages - 1).toNat)

/-- The value of `list_remote_keys(index)`: the Python function returns
`list(all_object_ids)`, whose content (order is unspecified) is the
accumulated set; `none` models the raised `TypeError`. -/
def list_remote_keys (pages : Nat → SearchPage) : Option (Finset String) :=
  (list_remote_keys_run pages).result

/-- Union of the hit ids of the requested pages whose index is below
`i` (the objectIDs accumulated before page `i` was processed). -/
def unionHitIdsBelow (pages : Nat → SearchPage) (req : List Nat)
    (i : Nat) : Finset String :=
  ((req.filter (fun j => j < i)).map (fun j => hitIds (pages j).hits)).foldr
    (fun a b => a ∪ b) ∅

/-- Concrete two-page remote index: page 0 reports 2 pages and hit
`"a"`, page 1 has hit `"b"` with a positive `nbHits`. -/
def bugPages : Nat → SearchPage := fun i =>
  if i = 0 then ⟨[⟨"a"⟩], 2, 2⟩ else ⟨[⟨"b"⟩], 2, 2⟩

/-- Concrete remote index whose page 0 reports 3 pages and whose page 1
reports zero hits: the short-circuit case of the pagination loop. -/
def zeroPages : Nat → SearchPage := fun i =>
  if i = 0 then ⟨[⟨"a"⟩], 5, 3⟩ else ⟨[], 0, 3⟩


/-- A Python dict with string keys and string values, as built for one
document record (`child_data` in `get_all_records`). -/
abbrev PyDict := List (String × String)

/-- Python dict item assignment `d[k] = v`: replaces the value of an
existing key in place, otherwise appends the new binding. -/
def dictInsert (d : PyDict) (k v : String) : PyDict :=
  if (List.map Prod.fst d).contains k then
    List.map (fun p => if p.1 = k then (k, v) else p) d
  else d ++ [(k, v)]

/-- Python dict lookup `d[k]`, `none` when the key is absent
(`KeyError`). -/
def dictGet (d : PyDict) (k : String) : Option String :=
  List.lookup k d

/-- One entry of `model_json["fields"]`: the source only reads
`field["name"]`. -/
structure FieldDef where
  name : String
deriving DecidableEq

/-- A Lektor field value as consumed by `stringify`: a `Markdown` value
carries its raw source text and its default string form (which renders
HTML), any other value is represented by its default string form
(`str(val)`). -/
inductive FieldValue where
  | markdown (source : String) (str_form : String)
  | other (str_form : String)

/-- `stringify(record, field_name)` applied to the looked-up value:
`val.source` for a `Markdown` instance, `str(val)` otherwise. -/
def stringify_val : FieldValue → String
  | FieldValue.markdown src _ => src
  | FieldValue.other s => s

/-- `is_public_field(field)` evaluates
`name[0] != "_" and name != "indexed"`; indexing an empty Python string
raises `IndexError`, hence `none` on an empty name. -/
def is_public_field (f : FieldDef) : Option Bool :=
  match f.name.data with
  | [] => none
  | c :: _ => some (decide (c ≠ '_') && decide (f.name ≠ "indexed"))

/-- `public_field_names(model_fields)`: the list comprehension
`[field["name"] for field in model_fields if is_public_field(field)]`,
aborting if any `is_public_field` test raises. -/
def public_field_names : List FieldDef → Option (List String)
  | [] => some []
  | f :: rest =>
    match is_public_field f, public_field_names rest with
    | some b, some tail => some (if b then f.name :: tail else tail)
    | _, _ => none

mutual

/-- A node of the Lektor content tree: its `_gid`, its `_path`, its
datamodel's declared field list (`model.to_json(pad, child)["fields"]`),
its field values, and its ordered children (`record.children.all()`).
Content trees are acyclic by construction. -/
inductive ContentNode where
  | mk (gid : String) (path : String) (modelFields : List FieldDef)
      (vals : String → FieldValue) (children : NodeList)

/-- An ordered list of content nodes (children of a node). -/
inductive NodeList where
  | nil
  | cons (c : ContentNode) (cs : NodeList)

end

/-- The node's stable global identifier `child["_gid"]`. -/
def ContentNode.gid : ContentNode → String
  | ContentNode.mk g _ _ _ _ => g

/-- The node's path `child["_path"]`. -/
def ContentNode.path : ContentNode → String
  | ContentNode.mk _ p _ _ _ => p

/-- The node's schema-declared field list. -/
def ContentNode.modelFields : ContentNode → List FieldDef
  | ContentNode.mk _ _ fs _ _ => fs

/-- Field access `record[field_name]` on the node. -/
def ContentNode.vals : ContentNode → String → FieldValue
  | ContentNode.mk _ _ _ v _ => v

/-- The node's children. -/
def ContentNode.children : ContentNode → NodeList
  | ContentNode.mk _ _ _ _ cs => cs

/-- `is_indexable(record)`: the current default predicate returns
`True` unconditionally (the field-flag-gated variant is commented
out in the source). -/
def is_indexable (_ : ContentNode) : Bool := true

/-- `stringify(record, field_name)` as called in `get_all_records`. -/
def stringify (c : ContentNode) (field_name : String) : String :=
  stringify_val (c.vals field_name)

/-- The `child_data` dict built for one indexable child: the public
fields stringified, then `child_data["objectID"] = child["_gid"]` and
`child_data["_path"] = child["_path"]`. -/
def buildRecord (c : ContentNode) (names : List String) : PyDict :=
  dictInsert
    (dictInsert (names.map (fun n => (n, stringify c n))) "objectID" c.gid)
    "_path" c.path

mutual

/-- `get_all_records(pad, record)`: iterates over the node's children;
for each child, if it is indexable, appends its `child_data` record,
then recursively appends the child's own records.  The node passed in
is itself never turned into a record.  `none` models a raised
exception. -/
def get_all_records : ContentNode → Option (List PyDict)
  | ContentNode.mk _ _ _ _ cs => records_of_children cs

/-- The `for child in record.children.all()` loop body of
`get_all_records`. -/
def records_of_children : NodeList → Option (List PyDict)
  | NodeList.nil => some []
  | NodeList.cons c cs =>
    match (if is_indexable c then
            match public_field_names c.modelFields with
            | none => none
            | some names => some [buildRecord c names]
          else some []) with
    | none => none
    | some ownRecs =>
      match get_all_records c with
      | none => none
      | some sub =>
        match records_of_children cs with
        | none => none
        | some rest => some (ownRecs ++ sub ++ rest)

end

mutual

/-- Data-model well-formedness: every schema-declared field name in the
tree is a nonempty string (Lektor field names come from `[fields.X]`
ini sections and are never empty). -/
def wfNode : ContentNode → Bool
  | ContentNode.mk _ _ fs _ cs =>
    fs.all (fun f => !f.name.data.isEmpty) && wfChildren cs

/-- `wfNode` over a list of nodes. -/
def wfChildren : NodeList → Bool
  | NodeList.nil => true
  | NodeList.cons c cs => wfNode c && wfChildren cs

end

mutual

/-- Number of nodes reachable from a node, the node itself included. -/
def countNodes : ContentNode → Nat
  | ContentNode.mk _ _ _ _ cs => 1 + countChildren cs

/-- Sum of `countNodes` over a list of nodes. -/
def countChildren : NodeList → Nat
  | NodeList.nil => 0
  | NodeList.cons c cs => countNodes c + countChildren cs

end

/-- Concrete one-node content tree: a root with no children. -/
def exRootSolo : ContentNode :=
  ContentNode.mk "g0" "/" [] (fun _ => FieldValue.other "") NodeList.nil

/-- Concrete leaf node with one field. -/
def exLeaf : ContentNode :=
  ContentNode.mk "g2" "/a" [⟨"title"⟩] (fun _ => FieldValue.other "T") NodeList.nil

/-- Concrete two-node content tree: a root with one child. -/
def exRoot : ContentNode :=
  ContentNode.mk "g1" "/" [⟨"title"⟩] (fun _ => FieldValue.other "R")
    (NodeList.cons exLeaf NodeList.nil)

/-- A credentials dict (`env.algolia_credentials`, `merged_creds`): a
partial map from key to a value that may itself be Python `None`.
`none` means the key is absent; `some none` means the key is present
with value `None` (what `config.get` stores for a missing option). -/
abbrev CredDict := String → Option (Option String)

/-- Python dict item assignment on a credentials dict. -/
def credInsert (d : CredDict) (k : String) (v : Option String) : CredDict :=
  fun x => if x = k then some v else d x

/-- Python membership test `k in d` on a credentials dict. -/
def hasKey (d : CredDict) (k : String) : Bool := (d k).isSome

/-- The CLI-supplied credentials dict `{username, password, key}`
handed to `publish`; each entry may be Python `None`. -/
structure CliCreds where
  username : Option String
  password : Option String
  key : Option String

/-- Python truthiness of a credential value: `None` and the empty
string are falsy. -/
def truthy : Option String → Bool
  | none => false
  | some s => !(s == "")

/-- The empty Python dict. -/
def empty_dict : CredDict := fun _ => none

/-- `on_setup_env`: builds `env.algolia_credentials` as a fresh dict
and unconditionally assigns both keys from `config.get`, so both keys
are always present (with value `None` when the config lacks them). -/
def on_setup_env_creds (config : String → Option String) : CredDict :=
  credInsert (credInsert empty_dict "app_id" (config "app_id"))
    "api_key" (config "api_key")

/-- `merge_credentials(config_creds, cli_creds)` as a value-level
function of the dict it operates on: skip everything if `cli_creds` is
falsy (`None`); otherwise a truthy `username` overwrites `app_id`, a
truthy `password` overwrites `api_key`, and a truthy `key` overwrites
`api_key` afterwards (so `key` wins over `password`). -/
def merge_credentials (config_creds : CredDict) (cli_creds : Option CliCreds) :
    CredDict :=
  match cli_creds with
  | none => config_creds
  | some c =>
    let m1 := if truthy c.username then credInsert config_creds "app_id" c.username
              else config_creds
    let m2 := if truthy c.password then credInsert m1 "api_key" c.password else m1
    if truthy c.key then credInsert m2 "api_key" c.key else m2

/-- A heap of credential-dict objects, indexed by reference: models
which dict object a Python variable such as
`self.env.algolia_credentials` points at. -/
abbrev Heap := Nat → CredDict

/-- Overwrite the object stored at one reference. -/
def heapWrite (h : Heap) (r : Nat) (d : CredDict) : Heap :=
  fun x => if x = r then d else h x

/-- The call `merge_credentials(config_creds, cli_creds)` at the heap
level: `merged_creds = config_creds` aliases the argument object, the
item assignments mutate that object in place, and the same reference is
returned — no copy is made. -/
def merge_credentials_call (h : Heap) (ref : Nat) (cli : Option CliCreds) :
    Heap × Nat :=
  (heapWrite h ref (merge_credentials (h ref) cli), ref)

/-- Modelled from the spec: the remote search collaborator consumed by
`publish` (the `algoliasearch` client is an external dependency, not
code of this repository).  `pages` answers the empty-query searches,
`deleteRawLen`/`saveRawLen` give `len(res.raw_responses)` of the batch
responses of `delete_objects`/`save_objects` (the service may batch
internally and report sub-batch counts), `indexExists` is whether
`init_index` succeeds. -/
structure RemoteIndex where
  pages : Nat → SearchPage
  deleteRawLen : Finset String → Nat
  saveRawLen : List PyDict → Nat
  indexExists : Bool

/-- One observable event of a publish run: a remote collaborator call
or a yielded progress message. -/
inductive Event where
  | search (page : Nat)
  | deleteObjects (keys : Finset String)
  | saveObjects (docs : List PyDict)
  | close
  | yieldMsg (msg : String)
deriving DecidableEq

/-- How a publish run ends: normal completion, the `PublishError`
raised by the credentials membership check, the `PublishError` raised
when `init_index` fails, or an uncaught dynamic exception. -/
inductive Outcome where
  | ok
  | configError
  | indexError
  | crashed
deriving DecidableEq

/-- The full observable behavior of one `publish` run. -/
structure RunResult where
  events : List Event
  outcome : Outcome
deriving DecidableEq

/-- The set comprehension
`{record["objectID"] for record in local}`; `none` models the
`KeyError` raised when a record lacks the key. -/
def localKeySet : List PyDict → Option (Finset String)
  | [] => some ∅
  | d :: ds =>
    match dictGet d "objectID", localKeySet ds with
    | some v, some s => some (insert v s)
    | _, _ => none

/-- `AlgoliaPublisher.publish(target_url, credentials)`: merges
credentials (`get_index`), checks key membership, resolves the index,
then runs the sync: count message, remote enumeration, diff, batched
delete, batched upsert, closing note and connection close.  The local
record list (`list_local()`) is a parameter because content-tree
discovery reads the project from disk. -/
def publish (config : String → Option String) (cli : Option CliCreds)
    (idx : RemoteIndex) (local_records : List PyDict) : RunResult :=
  let merged := merge_credentials (on_setup_env_creds config) cli
  if !(hasKey merged "app_id") || !(hasKey merged "api_key") then
    ⟨[], Outcome.configError⟩
  else if !idx.indexExists then
    ⟨[], Outcome.indexError⟩
  else
    match localKeySet local_records with
    | none => ⟨[], Outcome.crashed⟩
    | some local_keys =>
      let nloc := local_records.length
      let msg1 := Event.yieldMsg ("Found " ++ toString nloc ++ " local records to index.")
      let run := list_remote_keys_run idx.pages
      let searchEvents := run.requested.map Event.search
      match run.result with
      | none => ⟨msg1 :: searchEvents, Outcome.crashed⟩
      | some remote_keys =>
        let nrem := remote_keys.card
        let msg2 := Event.yieldMsg ("Found " ++ toString nrem ++ " existing remote records in the index.")
        let msg3 := Event.yieldMsg "Computing diff for index update..."
        let keys_to_delete := remote_keys \ local_keys
        let delete_count := idx.deleteRawLen keys_to_delete
        let msg4 := Event.yieldMsg ("Deleted " ++ toString delete_count ++ " stale records from remote index.")
        let add_count := idx.saveRawLen local_records
        let msg5 := Event.yieldMsg ("Finished submitting " ++ toString add_count ++ " new/updated records to the index.")
        let msg6 := Event.yieldMsg "Processing the updated index is asynchronous, so Aloglia may take a while to reflect the changes."
        ⟨msg1 :: (searchEvents ++ [msg2, msg3, Event.deleteObjects keys_to_delete,
          msg4, Event.saveObjects local_records, msg5, msg6, Event.close]), Outcome.ok⟩

/-- The progress messages of an event sequence, in order. -/
def msgsOf : List Event → List String
  | [] => []
  | Event.yieldMsg m :: rest => m :: msgsOf rest
  | _ :: rest => msgsOf rest

/-- The key-set arguments of the `delete_objects` calls of an event
sequence, in order. -/
def deleteArgsOf : List Event → List (Finset String)
  | [] => []
  | Event.deleteObjects ks :: rest => ks :: deleteArgsOf rest
  | _ :: rest => deleteArgsOf rest

/-- The record-list arguments of the `save_objects` calls of an event
sequence, in order. -/
def saveArgsOf : List Event → List (List PyDict)
  | [] => []
  | Event.saveObjects ds :: rest => ds :: saveArgsOf rest
  | _ :: rest => saveArgsOf rest

/-- Holds when no `delete_objects` call occurs after any
`save_objects` call: the delete phase fully precedes the upsert
phase. -/
def delete_precedes_save : List Event → Bool
  | [] => true
  | Event.saveObjects _ :: rest =>
    (deleteArgsOf rest).isEmpty && delete_precedes_save rest
  | _ :: rest => delete_precedes_save rest

/-- The one-document scenario's remote pages: one page reporting
`nbHits: 1, nbPages: 1` with hit objectID `"x1"`. -/
def scenPages : Nat → SearchPage := fun _ => ⟨[⟨"x1"⟩], 1, 1⟩

/-- Modelled from the spec: the `algoliasearch` client chunks batch
operations into sub-batches of at most 1000 and returns one raw
response per sub-batch, so an empty batch yields zero raw responses. -/
def chunkCount (n : Nat) : Nat := (n + 999) / 1000

/-- The one-document scenario's remote collaborator. -/
def scenIdx : RemoteIndex :=
  ⟨scenPages, fun ks => chunkCount ks.card, fun ds => chunkCount ds.length, true⟩

/-- A configuration source supplying both credentials. -/
def scenConfig : String → Option String := fun _ => some "secret"

/-- The one-document scenario's local set: one record with objectID
`"x1"` and title `"Hello"`. -/
def scenLocal : List PyDict := [[("objectID", "x1"), ("title", "Hello")]]

/-- A configuration source supplying no credentials at all
(`config.get` returns `None` for every option). -/
def noCredsConfig : String → Option String := fun _ => none

/-- A heap whose every reference holds the credentials dict built by
`on_setup_env` from the empty configuration. -/
def exHeap : Heap := fun _ => on_setup_env_creds noCredsConfig

/-- Concrete configuration credentials for the merge witness. -/
def exCreds : CredDict :=
  on_setup_env_creds
    (fun k => if k = "app_id" then some "cfg_app" else some "cfg_key")

/-- Concrete CLI credentials supplying all three override values. -/
def exCli : CliCreds := ⟨some "cli_user", some "cli_pass", some "cli_key"⟩

/-- Case analysis of one enumeration run: either page 0 reports at most
one page (no loop iteration), or page 1 is requested and reports zero
hits (break), or page 1 is requested with hits and the run raises
`TypeError` in `hit_object_ids(next_page["hits"])`. -/
theorem lrk_run_cases (pages : Nat → SearchPage) :
    (((pages 0).nbPages - 1).toNat = 0 ∧
      list_remote_keys_run pages = ⟨[0], some (hitIds (pages 0).hits)⟩) ∨
    (0 < ((pages 0).nbPages - 1).toNat ∧ (pages 1).nbHits ≤ 0 ∧
      list_remote_keys_run pages = ⟨[0, 1], some (hitIds (pages 0).hits)⟩) ∨
    (0 < ((pages 0).nbPages - 1).toNat ∧ ¬ (pages 1).nbHits ≤ 0 ∧
      list_remote_keys_run pages = ⟨[0, 1], none⟩) := by
  cases hn : ((pages 0).nbPages - 1).toNat with
  | zero =>
    left
    refine ⟨rfl, ?_⟩
    simp [list_remote_keys_run, hit_object_ids, hn, lrkLoop]
  | succ k =>
    right
    by_cases hz : (pages 1).nbHits ≤ 0
    · left
      refine ⟨Nat.succ_pos k, hz, ?_⟩
      simp [list_remote_keys_run, hit_object_ids, hn, List.range'_succ, lrkLoop, hz]
    · right
      refine ⟨Nat.succ_pos k, hz, ?_⟩
      simp [list_remote_keys_run, hit_object_ids, hn, List.range'_succ, lrkLoop, hz]

/-- Claim C1: the remote key enumerator is claimed to return the union
of the objectIDs of all fetched pages.  On a two-page remote index it
instead raises `TypeError`: the loop passes `next_page["hits"]` (a
list) to `hit_object_ids`, which indexes its argument with the string
`"hits"`.  Page 1 is actually fetched, its hit `"b"` should be in the
union `{"a", "b"}`, but the run aborts and returns nothing. -/
theorem claim_C1_enumerator_crashes_on_second_page :
    (list_remote_keys_run bugPages).requested = [0, 1] ∧
    list_remote_keys bugPages = none ∧
    list_remote_keys bugPages ≠
      some (hitIds (bugPages 0).hits ∪ hitIds (bugPages 1).hits) ∧
    hitIds (bugPages 0).hits ∪ hitIds (bugPages 1).hits =
      ({"a", "b"} : Finset String) := by
  refine ⟨by decide, by decide, by decide, by decide⟩

/-- Claim C6: if a subsequent page (index at least 1) that the
enumerator actually requested reports zero hits, enumeration stops
immediately at that page: no later page index is ever requested, and
the returned key set is exactly the union of the hit ids of the pages
fetched before it — no further objectIDs are added. -/
theorem claim_C6_zero_hit_page_stops_enumeration
    (pages : Nat → SearchPage) (i : Nat) (h1 : 1 ≤ i)
    (hreq : i ∈ (list_remote_keys_run pages).requested)
    (hz : (pages i).nbHits ≤ 0) :
    (∀ j ∈ (list_remote_keys_run pages).requested, j ≤ i) ∧
    (list_remote_keys_run pages).result =
      some (unionHitIdsBelow pages (list_remote_keys_run pages).requested i) := by
  rcases lrk_run_cases pages with ⟨hn, hrun⟩ | ⟨hn, hz1, hrun⟩ | ⟨hn, hz1, hrun⟩
  · rw [hrun] at hreq
    simp at hreq
    omega
  · rw [hrun] at hreq ⊢
    simp at hreq
    have hi : i = 1 := by omega
    subst hi
    refine ⟨by simp, ?_⟩
    simp [unionHitIdsBelow]
  · rw [hrun] at hreq
    simp at hreq
    have hi : i = 1 := by omega
    subst hi
    exact absurd hz hz1

/-- Witness for claim C6 at the concrete three-page remote index whose
page 1 reports zero hits. -/
theorem claim_C6_zero_hit_witness :
    (∀ j ∈ (list_remote_keys_run zeroPages).requested, j ≤ 1) ∧
    (list_remote_keys_run zeroPages).result =
      some (unionHitIdsBelow zeroPages (list_remote_keys_run zeroPages).requested 1) :=
  claim_C6_zero_hit_page_stops_enumeration zeroPages 1 (by decide) (by decide)
    (by decide)

/-- On a list of fields whose names are all nonempty,
`public_field_names` raises no `IndexError` and returns a list. -/
theorem public_field_names_total (fs : List FieldDef)
    (h : fs.all (fun f => !f.name.data.isEmpty) = true) :
    ∃ names, public_field_names fs = some names := by
  induction fs with
  | nil => exact ⟨[], rfl⟩
  | cons f rest ih =>
    simp only [List.all_cons, Bool.and_eq_true] at h
    obtain ⟨names, hn⟩ := ih h.2
    have hd : ∃ c r, f.name.data = c :: r := by
      cases hdat : f.name.data with
      | nil => exfalso; rw [hdat] at h; simp at h
      | cons c r => exact ⟨c, r, rfl⟩
    obtain ⟨c, r, hcr⟩ := hd
    refine ⟨if (decide (c ≠ '_') && decide (f.name ≠ "indexed")) then
      f.name :: names else names, ?_⟩
    simp only [public_field_names, is_public_field, hcr, hn]

mutual

/-- On a well-formed tree the extractor succeeds and produces exactly
one record per node strictly below the argument node. -/
theorem gar_length : ∀ (r : ContentNode), wfNode r = true →
    ∃ l, get_all_records r = some l ∧ l.length = countChildren r.children
  | ContentNode.mk _ _ fs v cs, h => by
    simp only [wfNode, Bool.and_eq_true] at h
    obtain ⟨l, hl, hlen⟩ := roc_length cs h.2
    exact ⟨l, hl, hlen⟩

/-- `gar_length` for the child loop: one record per node in the forest. -/
theorem roc_length : ∀ (cs : NodeList), wfChildren cs = true →
    ∃ l, records_of_children cs = some l ∧ l.length = countChildren cs
  | NodeList.nil, _ => ⟨[], rfl, rfl⟩
  | NodeList.cons c cs, h => by
    simp only [wfChildren, Bool.and_eq_true] at h
    obtain ⟨sub, hsub, hsublen⟩ := gar_length c h.1
    obtain ⟨rest, hrest, hrestlen⟩ := roc_length cs h.2
    have hwf : (c.modelFields).all (fun f => !f.name.data.isEmpty) = true := by
      cases c with
      | mk g p fs v cc =>
        have := h.1
        simp only [wfNode, Bool.and_eq_true] at this
        exact this.1
    obtain ⟨names, hnames⟩ := public_field_names_total c.modelFields hwf
    refine ⟨[buildRecord c names] ++ sub ++ rest, ?_, ?_⟩
    · cases c with
      | mk g p fs v cc =>
        simp only [ContentNode.modelFields] at hnames
        simp only [records_of_children, is_indexable, if_true,
          ContentNode.modelFields, hnames]
        rw [hsub, hrest]
    · simp only [List.length_append, List.length_cons, List.length_nil, countChildren]
      cases c with
      | mk g p fs v cc =>
        simp only [ContentNode.children] at hsublen
        simp only [countNodes]
        omega

end

/-- Claim C2, counterexample: on the one-node tree (a root with no
children) the extractor outputs zero records, while one node (the root)
is reachable from the root — the output count does not equal the number
of reachable nodes, because `get_all_records` only ever processes
children and never the node it is given. -/
theorem claim_C2_root_never_extracted :
    get_all_records exRootSolo = some [] ∧ countNodes exRootSolo = 1 ∧
    (get_all_records exRootSolo).map List.length ≠ some (countNodes exRootSolo) := by
  refine ⟨rfl, rfl, by decide⟩

/-- Claim C2 as amended: on every content tree whose schema field names
are nonempty, the extractor succeeds and produces exactly one
DocumentRecord per indexable node strictly below the root (under the
default always-indexable predicate its output count equals the number
of nodes reachable from the root minus one — the root itself is never
extracted), visiting every child of every node regardless of depth. -/
theorem claim_C2_extractor_counts_proper_descendants
    (r : ContentNode) (h : wfNode r = true) :
    (get_all_records r).map List.length = some (countNodes r - 1) := by
  obtain ⟨l, hl, hlen⟩ := gar_length r h
  rw [hl]
  cases r with
  | mk g p fs v cs =>
    simp only [ContentNode.children] at hlen
    simp only [Option.map_some', countNodes]
    congr 1
    omega

/-- Witness for the amended claim C2 at a concrete two-node tree. -/
theorem claim_C2_descendant_count_witness :
    (get_all_records exRoot).map List.length = some (countNodes exRoot - 1) :=
  claim_C2_extractor_counts_proper_descendants exRoot (by decide)

/-- Claim C8: on a schema whose declared field names are nonempty, the
projected public field names are exactly those declared names that do
not start with the reserved-prefix marker `'_'` and are not the literal
name `"indexed"`; a markdown-typed value is stringified as its raw
source text and every other value as its default string form. -/
theorem claim_C8_field_projection_and_stringification (fs : List FieldDef)
    (h : fs.all (fun f => !f.name.data.isEmpty) = true) :
    public_field_names fs =
      some ((fs.filter
        (fun f => decide (f.name.data.head? ≠ some '_') &&
                  decide (f.name ≠ "indexed"))).map FieldDef.name) ∧
    (∀ src html, stringify_val (FieldValue.markdown src html) = src) ∧
    (∀ s, stringify_val (FieldValue.other s) = s) := by
  refine ⟨?_, fun _ _ => rfl, fun _ => rfl⟩
  induction fs with
  | nil => rfl
  | cons f rest ih =>
    simp only [List.all_cons, Bool.and_eq_true] at h
    have htail := ih h.2
    have hd : ∃ c r, f.name.data = c :: r := by
      cases hdat : f.name.data with
      | nil => exfalso; rw [hdat] at h; simp at h
      | cons c r => exact ⟨c, r, rfl⟩
    obtain ⟨c, r, hcr⟩ := hd
    simp only [public_field_names, is_public_field, hcr, htail, List.filter_cons,
      List.head?, decide_not]
    by_cases hc : c = '_'
    · subst hc
      simp
    · by_cases hi : f.name = "indexed"
      · simp [hc, hi]
      · simp [hc, hi]

/-- Witness for claim C8 on a concrete four-field schema: `"title"` and
`"body"` are kept, `"_hidden"` and `"indexed"` are excluded. -/
theorem claim_C8_projection_witness :
    public_field_names [⟨"title"⟩, ⟨"_hidden"⟩, ⟨"indexed"⟩, ⟨"body"⟩] =
      some (([⟨"title"⟩, ⟨"_hidden"⟩, ⟨"indexed"⟩, (⟨"body"⟩ : FieldDef)].filter
        (fun f => decide (f.name.data.head? ≠ some '_') &&
                  decide (f.name ≠ "indexed"))).map FieldDef.name) ∧
    (∀ src html, stringify_val (FieldValue.markdown src html) = src) ∧
    (∀ s, stringify_val (FieldValue.other s) = s) :=
  claim_C8_field_projection_and_stringification
    [⟨"title"⟩, ⟨"_hidden"⟩, ⟨"indexed"⟩, ⟨"body"⟩] (by decide)

/-- The credentials membership check of `get_index` can never fire:
`on_setup_env` always stores both keys (possibly as `None`), and
merging only adds or overwrites bindings. -/
theorem merged_has_creds (config : String → Option String) (cli : Option CliCreds) :
    hasKey (merge_credentials (on_setup_env_creds config) cli) "app_id" = true ∧
    hasKey (merge_credentials (on_setup_env_creds config) cli) "api_key" = true := by
  cases cli with
  | none => simp [hasKey, merge_credentials, on_setup_env_creds, credInsert]
  | some c =>
    simp only [merge_credentials]
    constructor <;>
    · by_cases h1 : truthy c.username <;> by_cases h2 : truthy c.password <;>
        by_cases h3 : truthy c.key <;>
        simp [h1, h2, h3, hasKey, credInsert, on_setup_env_creds]

/-- Evaluation of a publish run that reaches the sync phase: the full
event sequence it produces. -/
theorem publish_eval (config : String → Option String) (cli : Option CliCreds)
    (idx : RemoteIndex) (local_records : List PyDict)
    (local_keys remote_keys : Finset String)
    (hix : idx.indexExists = true)
    (hlk : localKeySet local_records = some local_keys)
    (hrk : (list_remote_keys_run idx.pages).result = some remote_keys) :
    publish config cli idx local_records =
      ⟨Event.yieldMsg ("Found " ++ toString local_records.length ++ " local records to index.") ::
        ((list_remote_keys_run idx.pages).requested.map Event.search ++
         [Event.yieldMsg ("Found " ++ toString remote_keys.card ++ " existing remote records in the index."),
          Event.yieldMsg "Computing diff for index update...",
          Event.deleteObjects (remote_keys \ local_keys),
          Event.yieldMsg ("Deleted " ++ toString (idx.deleteRawLen (remote_keys \ local_keys)) ++ " stale records from remote index."),
          Event.saveObjects local_records,
          Event.yieldMsg ("Finished submitting " ++ toString (idx.saveRawLen local_records) ++ " new/updated records to the index."),
          Event.yieldMsg "Processing the updated index is asynchronous, so Aloglia may take a while to reflect the changes.",
          Event.close]), Outcome.ok⟩ := by
  have hkeys := merged_has_creds config cli
  simp only [publish, hkeys.1, hkeys.2, hix, hlk, hrk, Bool.not_true,
    Bool.or_self, Bool.false_eq_true, if_false]

/-- `deleteArgsOf` distributes over append. -/
theorem deleteArgsOf_append (a b : List Event) :
    deleteArgsOf (a ++ b) = deleteArgsOf a ++ deleteArgsOf b := by
  induction a with
  | nil => rfl
  | cons e t ih => cases e <;> simp [deleteArgsOf, ih]

/-- `saveArgsOf` distributes over append. -/
theorem saveArgsOf_append (a b : List Event) :
    saveArgsOf (a ++ b) = saveArgsOf a ++ saveArgsOf b := by
  induction a with
  | nil => rfl
  | cons e t ih => cases e <;> simp [saveArgsOf, ih]

/-- Search events carry no delete call. -/
theorem deleteArgsOf_search_map (l : List Nat) :
    deleteArgsOf (l.map Event.search) = [] := by
  induction l with
  | nil => rfl
  | cons a t ih => simpa [deleteArgsOf] using ih

/-- Search events carry no upsert call. -/
theorem saveArgsOf_search_map (l : List Nat) :
    saveArgsOf (l.map Event.search) = [] := by
  induction l with
  | nil => rfl
  | cons a t ih => simpa [saveArgsOf] using ih

/-- Search events are irrelevant to the delete-before-upsert order. -/
theorem dps_search_append (l : List Nat) (rest : List Event) :
    delete_precedes_save (l.map Event.search ++ rest) = delete_precedes_save rest := by
  induction l with
  | nil => rfl
  | cons a t ih => simpa [delete_precedes_save] using ih

/-- The set built by the `local_keys` comprehension is the set of
objectIDs of the local records. -/
theorem localKeySet_eq (ds : List PyDict) (s : Finset String)
    (h : localKeySet ds = some s) :
    s = (ds.filterMap (fun d => dictGet d "objectID")).toFinset := by
  induction ds generalizing s with
  | nil =>
    simp only [localKeySet, Option.some.injEq] at h
    simp [← h]
  | cons d t ih =>
    simp only [localKeySet] at h
    cases hg : dictGet d "objectID" with
    | none => rw [hg] at h; simp at h
    | some v =>
      rw [hg] at h
      cases ht : localKeySet t with
      | none => rw [ht] at h; simp at h
      | some s2 =>
        rw [ht] at h
        simp only [Option.some.injEq] at h
        rw [← h, List.filterMap_cons, hg]
        simp [ih s2 ht]

/-- Claim C3: in every run that reaches the diff, the single
`delete_objects` call receives exactly `remote_keys` minus the set of
objectIDs of the local records, and the single `save_objects` call
receives the entire local record list; an empty local set deletes the
full remote set, and an empty remote set deletes nothing while still
upserting the full local set. -/
theorem claim_C3_diff_and_full_upsert
    (config : String → Option String) (cli : Option CliCreds)
    (idx : RemoteIndex) (local_records : List PyDict)
    (local_keys remote_keys : Finset String)
    (hix : idx.indexExists = true)
    (hlk : localKeySet local_records = some local_keys)
    (hrk : list_remote_keys idx.pages = some remote_keys) :
    deleteArgsOf (publish config cli idx local_records).events =
      [remote_keys \ local_keys] ∧
    saveArgsOf (publish config cli idx local_records).events = [local_records] ∧
    local_keys = (local_records.filterMap (fun d => dictGet d "objectID")).toFinset ∧
    (local_records = [] →
      deleteArgsOf (publish config cli idx local_records).events = [remote_keys]) ∧
    (remote_keys = ∅ →
      deleteArgsOf (publish config cli idx local_records).events =
        [(∅ : Finset String)]) := by
  rw [publish_eval config cli idx local_records local_keys remote_keys hix hlk hrk]
  have h1 : deleteArgsOf
      (Event.yieldMsg ("Found " ++ toString local_records.length ++ " local records to index.") ::
        ((list_remote_keys_run idx.pages).requested.map Event.search ++
         [Event.yieldMsg ("Found " ++ toString remote_keys.card ++ " existing remote records in the index."),
          Event.yieldMsg "Computing diff for index update...",
          Event.deleteObjects (remote_keys \ local_keys),
          Event.yieldMsg ("Deleted " ++ toString (idx.deleteRawLen (remote_keys \ local_keys)) ++ " stale records from remote index."),
          Event.saveObjects local_records,
          Event.yieldMsg ("Finished submitting " ++ toString (idx.saveRawLen local_records) ++ " new/updated records to the index."),
          Event.yieldMsg "Processing the updated index is asynchronous, so Aloglia may take a while to reflect the changes.",
          Event.close])) = [remote_keys \ local_keys] := by
    simp [deleteArgsOf, deleteArgsOf_append, deleteArgsOf_search_map]
  refine ⟨h1, ?_, ?_, ?_, ?_⟩
  · simp [saveArgsOf, saveArgsOf_append, saveArgsOf_search_map]
  · exact localKeySet_eq local_records local_keys hlk
  · intro hempty
    subst hempty
    have hlk0 : local_keys = ∅ := by
      simp only [localKeySet, Option.some.injEq] at hlk
      exact hlk.symm
    rw [h1, hlk0]
    simp
  · intro hempty
    rw [h1, hempty]
    simp

/-- Witness for claim C3 at the one-document scenario. -/
theorem claim_C3_diff_witness :
    deleteArgsOf (publish scenConfig none scenIdx scenLocal).events =
      [({"x1"} : Finset String) \ {"x1"}] ∧
    saveArgsOf (publish scenConfig none scenIdx scenLocal).events = [scenLocal] ∧
    ({"x1"} : Finset String) =
      (scenLocal.filterMap (fun d => dictGet d "objectID")).toFinset ∧
    (scenLocal = [] →
      deleteArgsOf (publish scenConfig none scenIdx scenLocal).events =
        [({"x1"} : Finset String)]) ∧
    (({"x1"} : Finset String) = ∅ →
      deleteArgsOf (publish scenConfig none scenIdx scenLocal).events =
        [(∅ : Finset String)]) :=
  claim_C3_diff_and_full_upsert scenConfig none scenIdx scenLocal
    {"x1"} {"x1"} rfl (by decide) (by decide)

/-- Claim C5: the deletion progress message reports exactly the number
of raw responses acknowledged by the remote service for the delete
batch, the upsert message the number acknowledged for the upsert batch;
and the one-document scenario emits counts 1 local, 1 remote, 0
deleted, 1 upserted. -/
theorem claim_C5_acknowledged_counts
    (config : String → Option String) (cli : Option CliCreds)
    (idx : RemoteIndex) (local_records : List PyDict)
    (local_keys remote_keys : Finset String)
    (hix : idx.indexExists = true)
    (hlk : localKeySet local_records = some local_keys)
    (hrk : list_remote_keys idx.pages = some remote_keys) :
    Event.yieldMsg ("Deleted " ++ toString (idx.deleteRawLen (remote_keys \ local_keys)) ++
        " stale records from remote index.") ∈
      (publish config cli idx local_records).events ∧
    Event.yieldMsg ("Finished submitting " ++ toString (idx.saveRawLen local_records) ++
        " new/updated records to the index.") ∈
      (publish config cli idx local_records).events ∧
    msgsOf (publish scenConfig none scenIdx scenLocal).events =
      ["Found 1 local records to index.",
       "Found 1 existing remote records in the index.",
       "Computing diff for index update...",
       "Deleted 0 stale records from remote index.",
       "Finished submitting 1 new/updated records to the index.",
       "Processing the updated index is asynchronous, so Aloglia may take a while to reflect the changes."] := by
  rw [publish_eval config cli idx local_records local_keys remote_keys hix hlk hrk]
  refine ⟨by simp, by simp, by decide⟩

/-- Witness for claim C5 at the one-document scenario. -/
theorem claim_C5_counts_witness :
    Event.yieldMsg ("Deleted " ++
        toString (scenIdx.deleteRawLen (({"x1"} : Finset String) \ {"x1"})) ++
        " stale records from remote index.") ∈
      (publish scenConfig none scenIdx scenLocal).events ∧
    Event.yieldMsg ("Finished submitting " ++ toString (scenIdx.saveRawLen scenLocal) ++
        " new/updated records to the index.") ∈
      (publish scenConfig none scenIdx scenLocal).events ∧
    msgsOf (publish scenConfig none scenIdx scenLocal).events =
      ["Found 1 local records to index.",
       "Found 1 existing remote records in the index.",
       "Computing diff for index update...",
       "Deleted 0 stale records from remote index.",
       "Finished submitting 1 new/updated records to the index.",
       "Processing the updated index is asynchronous, so Aloglia may take a while to reflect the changes."] :=
  claim_C5_acknowledged_counts scenConfig none scenIdx scenLocal
    {"x1"} {"x1"} rfl (by decide) (by decide)

/-- A publish run that completes normally must have passed index
resolution, the local key comprehension and the remote enumeration. -/
theorem publish_ok_inv (config : String → Option String) (cli : Option CliCreds)
    (idx : RemoteIndex) (local_records : List PyDict)
    (hok : (publish config cli idx local_records).outcome = Outcome.ok) :
    idx.indexExists = true ∧
    (∃ lk, localKeySet local_records = some lk) ∧
    (∃ rk, (list_remote_keys_run idx.pages).result = some rk) := by
  have hkeys := merged_has_creds config cli
  by_cases hix : idx.indexExists = true
  · refine ⟨hix, ?_⟩
    simp only [publish, hkeys.1, hkeys.2, hix, Bool.not_true, Bool.or_self,
      Bool.false_eq_true, if_false] at hok
    cases hlk : localKeySet local_records with
    | none => simp only [hlk] at hok; simp at hok
    | some lk =>
      simp only [hlk] at hok
      cases hrk : (list_remote_keys_run idx.pages).result with
      | none => simp only [hrk] at hok; simp at hok
      | some rk => exact ⟨⟨lk, rfl⟩, ⟨rk, rfl⟩⟩
  · exfalso
    have hb : idx.indexExists = false := by
      revert hix; cases idx.indexExists <;> simp
    simp only [publish, hkeys.1, hkeys.2, hb, Bool.not_true, Bool.or_self,
      Bool.false_eq_true, if_false, Bool.not_false, if_true] at hok
    simp at hok

/-- Claim C7: in every run that completes, exactly one batched
`delete_objects` call and exactly one batched `save_objects` call are
issued, and no delete call ever occurs after an upsert call — the
delete phase fully precedes the upsert phase. -/
theorem claim_C7_delete_precedes_upsert
    (config : String → Option String) (cli : Option CliCreds)
    (idx : RemoteIndex) (local_records : List PyDict)
    (hok : (publish config cli idx local_records).outcome = Outcome.ok) :
    (deleteArgsOf (publish config cli idx local_records).events).length = 1 ∧
    (saveArgsOf (publish config cli idx local_records).events).length = 1 ∧
    delete_precedes_save (publish config cli idx local_records).events = true := by
  obtain ⟨hix, ⟨lk, hlk⟩, ⟨rk, hrk⟩⟩ := publish_ok_inv config cli idx local_records hok
  rw [publish_eval config cli idx local_records lk rk hix hlk hrk]
  refine ⟨?_, ?_, ?_⟩
  · simp [deleteArgsOf, deleteArgsOf_append, deleteArgsOf_search_map]
  · simp [saveArgsOf, saveArgsOf_append, saveArgsOf_search_map]
  · simp [delete_precedes_save, dps_search_append, deleteArgsOf]

/-- Witness for claim C7 at the one-document scenario. -/
theorem claim_C7_order_witness :
    (deleteArgsOf (publish scenConfig none scenIdx scenLocal).events).length = 1 ∧
    (saveArgsOf (publish scenConfig none scenIdx scenLocal).events).length = 1 ∧
    delete_precedes_save (publish scenConfig none scenIdx scenLocal).events = true :=
  claim_C7_delete_precedes_upsert scenConfig none scenIdx scenLocal (by decide)

/-- Claim C9: merged credentials give precedence to CLI values exactly
when they are truthy — a truthy username replaces `app_id`, a truthy
key replaces `api_key` and wins over a truthy password, a truthy
password replaces `api_key` otherwise; falsy or absent CLI values (and
a missing CLI dict) leave the configuration values in place, and no
other key is touched. -/
theorem claim_C9_cli_precedence (creds : CredDict) (c : CliCreds) :
    (merge_credentials creds (some c)) "app_id" =
      (if truthy c.username then some c.username else creds "app_id") ∧
    (merge_credentials creds (some c)) "api_key" =
      (if truthy c.key then some c.key
       else if truthy c.password then some c.password
       else creds "api_key") ∧
    merge_credentials creds none = creds ∧
    (∀ k, k ≠ "app_id" → k ≠ "api_key" →
      (merge_credentials creds (some c)) k = creds k) := by
  refine ⟨?_, ?_, rfl, ?_⟩
  · by_cases h1 : truthy c.username <;> by_cases h2 : truthy c.password <;>
      by_cases h3 : truthy c.key <;>
      simp [merge_credentials, credInsert, h1, h2, h3]
  · by_cases h1 : truthy c.username <;> by_cases h2 : truthy c.password <;>
      by_cases h3 : truthy c.key <;>
      simp [merge_credentials, credInsert, h1, h2, h3]
  · intro k hk1 hk2
    by_cases h1 : truthy c.username <;> by_cases h2 : truthy c.password <;>
      by_cases h3 : truthy c.key <;>
      simp [merge_credentials, credInsert, h1, h2, h3, hk1, hk2]

/-- Witness for claim C9 at concrete configuration and CLI values,
with the untouched-key conjunct instantiated at the key `"other"`. -/
theorem claim_C9_precedence_witness :
    (merge_credentials exCreds (some exCli)) "app_id" =
      (if truthy exCli.username then some exCli.username else exCreds "app_id") ∧
    (merge_credentials exCreds (some exCli)) "api_key" =
      (if truthy exCli.key then some exCli.key
       else if truthy exCli.password then some exCli.password
       else exCreds "api_key") ∧
    merge_credentials exCreds none = exCreds ∧
    (merge_credentials exCreds (some exCli)) "other" = exCreds "other" :=
  have h := claim_C9_cli_precedence exCreds exCli
  ⟨h.1, h.2.1, h.2.2.1, h.2.2.2 "other" (by decide) (by decide)⟩

/-- Claim C10: `merge_credentials` returns the very reference it was
given (no copy), and after the call the dict object stored at that
reference holds the merged bindings — a CLI override is written back
into the environment's credential state and persists; concretely,
merging a truthy CLI username over the environment's dict changes its
stored `app_id` from `None` to the CLI value. -/
theorem claim_C10_merge_mutates_in_place
    (h : Heap) (ref : Nat) (cli : Option CliCreds) :
    (merge_credentials_call h ref cli).2 = ref ∧
    (merge_credentials_call h ref cli).1 ref = merge_credentials (h ref) cli ∧
    ((merge_credentials_call exHeap 0 (some ⟨some "u", none, none⟩)).1 0) "app_id" =
      some (some "u") ∧
    exHeap 0 "app_id" = some none := by
  refine ⟨rfl, by simp [merge_credentials_call, heapWrite], ?_, rfl⟩
  simp [merge_credentials_call, heapWrite, merge_credentials, truthy, exHeap,
    on_setup_env_creds, credInsert, noCredsConfig]

/-- Claim C4: with a configuration supplying neither credential and no
CLI override, no ConfigurationError is raised — `on_setup_env` stores
both keys with value `None`, so the membership check in `get_index`
passes, the client is created with `None` credentials, and the run
proceeds to issue the page-0 search against the remote collaborator. -/
theorem claim_C4_no_config_error_on_absent_credentials :
    on_setup_env_creds noCredsConfig "app_id" = some none ∧
    on_setup_env_creds noCredsConfig "api_key" = some none ∧
    (publish noCredsConfig none scenIdx scenLocal).outcome ≠ Outcome.configError ∧
    (publish noCredsConfig none scenIdx scenLocal).outcome = Outcome.ok ∧
    Event.search 0 ∈ (publish noCredsConfig none scenIdx scenLocal).events := by
  refine ⟨rfl, rfl, by decide, by decide, by decide⟩
